import Mathlib

/-!
# Path-filter evaluation engine: a shallow embedding

This file embeds the core of the path-filter engine implemented in
`src/.github/actions/paths-filter-lite/index.js` — glob pattern compilation
(`globToRegex`, lines 162-187), pattern-list compilation (`compilePatterns`,
lines 189-202), per-file filter evaluation with negation (`fileMatchesFilter`,
lines 204-220), the small line-oriented filter-definition parser
(`parseFilters`, lines 119-156), and the `some`-quantifier aggregation loop of
`main` (lines 235-240) — and proves or refutes the specified properties
against it.

Strings are modelled at the character level (`List Char`), with `String`
entry points converting via `String.toList`. The anchored regular expression
built by `globToRegex` is represented as a token list, and `RegExp.test` on
that anchored regex is the whole-string matcher `globMatch`.
-/

/-- The failure `main` raises at lines 226-229 of `index.js` when
`parseFilters` found no filter names (`No filters defined in input`); the
specification calls this `MalformedDefinitionError`. -/
inductive EngineError where
  | noFiltersDefined
  deriving DecidableEq, Repr

/-- The token alphabet of the regex text built by `globToRegex`
(`index.js` lines 162-187): an escaped literal character, `[^/]*` for a lone
`*`, `.*` for `**`, and `[^/]` for `?`. -/
inductive GlobToken where
  | lit (c : Char)
  | star
  | dstar
  | qmark
  deriving DecidableEq, Repr

/-- Embeds `globToRegex` of `index.js` (lines 168-185): scan the glob left to
right; `*` followed by another `*` consumes both and emits `.*` (`dstar`), a
lone `*` emits `[^/]*` (`star`), `?` emits `[^/]` (`qmark`), and every other
character is emitted as an escaped literal. There is no special treatment of
a `/` adjacent to `**`. -/
def globToRegex : List Char → List GlobToken
  | [] => []
  | '*' :: '*' :: rest => .dstar :: globToRegex rest
  | '*' :: rest => .star :: globToRegex rest
  | '?' :: rest => .qmark :: globToRegex rest
  | c :: rest => .lit c :: globToRegex rest

/-- Continuation-style matcher for `[^/]*`: skip zero or more non-`/`
characters, then let the rest of the regex (the continuation `m`) match the
remainder. -/
def starTail (m : List Char → Bool) : List Char → Bool
  | [] => m []
  | d :: ds => m (d :: ds) || ((d != '/') && starTail m ds)

/-- Continuation-style matcher for `.*`: skip zero or more characters of any
kind (crossing `/`), then let the continuation `m` match the remainder. -/
def dstarTail (m : List Char → Bool) : List Char → Bool
  | [] => m []
  | d :: ds => m (d :: ds) || dstarTail m ds

/-- `RegExp.test` of the anchored regex `^...$` built by `globToRegex`
(line 186 of `index.js`): whole-string matching of the token list against a
path. The empty token list accepts exactly the empty path, so the matcher is
anchored at both ends. -/
def globMatch : List GlobToken → List Char → Bool
  | [], s => s.isEmpty
  | .lit _ :: _, [] => false
  | .lit c :: ts, d :: ds => (c == d) && globMatch ts ds
  | .qmark :: _, [] => false
  | .qmark :: ts, d :: ds => (d != '/') && globMatch ts ds
  | .star :: ts, s => starTail (fun t => globMatch ts t) s
  | .dstar :: ts, s => dstarTail (fun t => globMatch ts t) s

/-- The compiled matcher for a glob string, applied to a path string. -/
def matchGlob (pat path : String) : Bool :=
  globMatch (globToRegex pat.toList) path.toList

/-- Character-level model of JavaScript `String.prototype.trim`: remove
leading and trailing whitespace. -/
def trimChars (s : List Char) : List Char :=
  ((s.dropWhile Char.isWhitespace).reverse.dropWhile Char.isWhitespace).reverse

/-- Whether a character list begins with `!` (`s.startsWith` at line 193 of
`index.js`). -/
def startsWithBang : List Char → Bool
  | [] => false
  | c :: _ => c == '!'

/-- One compiled pattern, the record `{ negative, rx, raw }` built by
`compilePatterns` at line 198 of `index.js`; the regex `rx` is held as its
token list. -/
structure PatternSpec where
  negative : Bool
  tokens : List GlobToken
  raw : List Char
  deriving DecidableEq, Repr

/-- Embeds the per-pattern body of `compilePatterns` (`index.js` lines
190-198): trim the raw text, take a leading `!` as the negation flag and trim
the remainder, then compile the rest with `globToRegex`. There is no failure
path: the empty glob simply compiles to the regex `^$`. -/
def compilePattern (raw : List Char) : PatternSpec :=
  if startsWithBang (trimChars raw) then
    { negative := true,
      tokens := globToRegex (trimChars ((trimChars raw).drop 1)),
      raw := raw }
  else
    { negative := false, tokens := globToRegex (trimChars raw), raw := raw }

/-- The compiled form of one filter, `{ patterns, hasPositive }` as returned
by `compilePatterns` (`index.js` lines 200-201). -/
structure CompiledFilter where
  patterns : List PatternSpec
  hasPositive : Bool
  deriving DecidableEq, Repr

/-- Embeds `compilePatterns` of `index.js` (lines 189-202): compile every raw
pattern unconditionally and record whether some pattern is non-negative. -/
def compilePatterns (patternsRaw : List (List Char)) : CompiledFilter :=
  { patterns := patternsRaw.map compilePattern,
    hasPositive := (patternsRaw.map compilePattern).any (fun p => !p.negative) }

/-- `p.rx.test file` for one compiled pattern (line 211 of `index.js`). -/
def patternMatches (p : PatternSpec) (file : List Char) : Bool :=
  globMatch p.tokens file

/-- Embeds `fileMatchesFilter` of `index.js` (lines 204-220): `included`
starts `false` when the filter has a positive pattern and `true` otherwise
(also when the pattern list is empty), and every pattern is scanned in
declaration order with no early exit: each matching pattern overwrites
`included` with the negation of its `negative` flag. -/
def fileMatchesFilter (file : List Char) (compiled : CompiledFilter) : Bool :=
  compiled.patterns.foldl
    (fun included p => if patternMatches p file then !p.negative else included)
    (if compiled.hasPositive then false else true)

/-- The character class `[A-Za-z0-9_.-]` of the filter-name regex at line 134
of `index.js`. -/
def isIdentChar (c : Char) : Bool :=
  c.isAlpha || c.isDigit || c == '_' || c == '.' || c == '-'

/-- The filter-name test `^([A-Za-z0-9_.-]+):\s*$` of `index.js` line 134,
applied to an already-trimmed line: a non-empty run of name characters
followed by a colon and nothing else. -/
def isNameLine (l : List Char) : Bool :=
  match l.getLast? with
  | some ':' => !l.dropLast.isEmpty && l.dropLast.all isIdentChar
  | _ => false

/-- Whether a raw input line declares a filter name once trimmed. -/
def lineIsName (rawLine : List Char) : Bool :=
  isNameLine (trimChars rawLine)

/-- Association lookup of the raw pattern list of a filter by name, modelling
property access on the `result` object of `parseFilters`. -/
def lookupFilter : List (List Char × List (List Char)) → List Char → Option (List (List Char))
  | [], _ => none
  | e :: rest, name => if e.1 = name then some e.2 else lookupFilter rest name

/-- Line 137 of `index.js`, `if (!result[current]) result[current] = []`: a
freshly seen name is appended with an empty pattern list, while a re-declared
name keeps its existing list untouched. -/
def addFilterName (acc : List (List Char × List (List Char))) (name : List Char) :
    List (List Char × List (List Char)) :=
  match lookupFilter acc name with
  | some _ => acc
  | none => acc ++ [(name, [])]

/-- `result[current].push(pat)` (line 151 of `index.js`): append one raw
pattern to the entry of the named filter. -/
def addPattern : List (List Char × List (List Char)) → List Char → List Char → List (List Char × List (List Char))
  | [], _, _ => []
  | e :: rest, name, pat =>
      if e.1 = name then (e.1, e.2 ++ [pat]) :: rest
      else e :: addPattern rest name pat

/-- The pattern-item test `^-\s*(.+?)\s*$` of `index.js` line 141 followed by
the `.trim()` at line 143, applied to an already-trimmed line: a dash whose
remainder trims to something non-empty yields that trimmed remainder, and a
bare dash matches nothing. -/
def itemContent (line : List Char) : Option (List Char) :=
  match line with
  | '-' :: rest => if trimChars rest = [] then none else some (trimChars rest)
  | _ => none

/-- The single-quote character. -/
def squote : Char := Char.ofNat 39

/-- The double-quote character. -/
def dquote : Char := Char.ofNat 34

/-- The quote stripping of `index.js` lines 145-150: when the pattern both
starts and ends with the same quote character, drop the first and last
characters. -/
def stripQuotes (p : List Char) : List Char :=
  if (p.head? = some squote ∧ p.getLast? = some squote) ∨
      (p.head? = some dquote ∧ p.getLast? = some dquote) then
    (p.drop 1).dropLast
  else p

/-- The parser state of `parseFilters`: the current filter name (`current`,
initially `null`) and the accumulated filters in insertion order
(`result`). -/
abbrev ParseState := Option (List Char) × List (List Char × List (List Char))

/-- One iteration of the line loop of `parseFilters` (`index.js` lines
130-153): trim the line and skip it when blank; a filter-name line makes that
name current, appending it with an empty list only when it is new; otherwise
a pattern item belonging to a current filter is quote-stripped and appended;
every other line — including any pattern item seen before the first filter
name — is ignored. -/
def parseStep (st : ParseState) (rawLine : List Char) : ParseState :=
  let line := trimChars rawLine
  if line = [] then st
  else if isNameLine line then
    (some line.dropLast, addFilterName st.2 line.dropLast)
  else
    match itemContent line, st.1 with
    | some pat, some n => (st.1, addPattern st.2 n (stripQuotes pat))
    | _, _ => st

/-- Splitting the input on `/\r?\n/` (line 129 of `index.js`). -/
def splitLines : List Char → List (List Char)
  | [] => [[]]
  | '\r' :: '\n' :: rest => [] :: splitLines rest
  | '\n' :: rest => [] :: splitLines rest
  | c :: rest =>
      match splitLines rest with
      | [] => [[c]]
      | l :: ls => (c :: l) :: ls

/-- Embeds `parseFilters` of `index.js` (lines 119-156) on a character
list: fold the line loop over the split input, starting with no current
filter and an empty result. -/
def parseFiltersChars (text : List Char) : List (List Char × List (List Char)) :=
  ((splitLines text).foldl parseStep (none, [])).2

/-- `parseFilters` on a `String` input. -/
def parseFilters (text : String) : List (List Char × List (List Char)) :=
  parseFiltersChars text.toList

/-- The guard of `main` at lines 226-229 of `index.js`: parsing succeeds with
the filter map unless it is empty, in which case `No filters defined` is
raised. -/
def parseFiltersChecked (text : String) :
    Except EngineError (List (List Char × List (List Char))) :=
  if (parseFilters text).isEmpty then .error .noFiltersDefined
  else .ok (parseFilters text)

/-- `changedFiles.some((f) => fileMatchesFilter(f, compiled))` — the
`some`-quantifier verdict of one compiled filter over the changed-file list
(line 237 of `index.js`). -/
def filterAnyResult (compiled : CompiledFilter) (changed : List (List Char)) : Bool :=
  changed.any (fun f => fileMatchesFilter f compiled)

/-- The aggregation loop of `main` (`index.js` lines 235-240): for every
filter name in order, compile its raw patterns and emit one boolean. -/
def evaluateAny (filters : List (List Char × List (List Char)))
    (changed : List (List Char)) : List (List Char × Bool) :=
  filters.map (fun f => (f.1, filterAnyResult (compilePatterns f.2) changed))

/-- The whole-string generation relation of a glob: the path is exactly the
concatenation of one fragment per token — the token character for a literal,
one non-`/` character for `?`, a run of non-`/` characters for `*`, and an
arbitrary run for `**`. Acceptance of a proper substring or superstring of a
generated path is not acceptance of the path: the relation consumes the
entire path. -/
inductive GlobSem : List GlobToken → List Char → Prop where
  | nil : GlobSem [] []
  | lit {c : Char} {ts : List GlobToken} {s : List Char} :
      GlobSem ts s → GlobSem (.lit c :: ts) (c :: s)
  | qmark {c : Char} {ts : List GlobToken} {s : List Char} :
      c ≠ '/' → GlobSem ts s → GlobSem (.qmark :: ts) (c :: s)
  | star {w : List Char} {ts : List GlobToken} {s : List Char} :
      (∀ c ∈ w, c ≠ '/') → GlobSem ts s → GlobSem (.star :: ts) (w ++ s)
  | dstar {w : List Char} {ts : List GlobToken} {s : List Char} :
      GlobSem ts s → GlobSem (.dstar :: ts) (w ++ s)

/-! ## Last-match-wins evaluation -/

/-- When no pattern in the list matches the file, the evaluator loop leaves
the initial verdict unchanged. -/
lemma foldl_verdict_no_match (file : List Char) :
    ∀ (ps : List PatternSpec) (init : Bool),
      (∀ q ∈ ps, patternMatches q file = false) →
      ps.foldl (fun included q => if patternMatches q file then !q.negative else included)
        init = init := by
  intro ps
  induction ps with
  | nil => intro init _; rfl
  | cons q rest ih =>
      intro init h
      have hq : patternMatches q file = false := h q (List.mem_cons_self q rest)
      simp only [List.foldl_cons]
      rw [if_neg (by simp [hq])]
      exact ih init fun p hp => h p (List.mem_cons_of_mem q hp)

/-- The evaluator loop returns the negation flip of the last matching
pattern, whatever the initial verdict was. -/
lemma foldl_verdict_last_match (file : List Char) :
    ∀ (ps : List PatternSpec) (init : Bool) (p : PatternSpec),
      (ps.filter (fun q => patternMatches q file)).getLast? = some p →
      ps.foldl (fun included q => if patternMatches q file then !q.negative else included)
        init = !p.negative := by
  intro ps
  induction ps with
  | nil => intro init p h; simp at h
  | cons q rest ih =>
      intro init p h
      by_cases hq : patternMatches q file = true
      · rw [List.filter_cons_of_pos (by simpa using hq)] at h
        cases hfr : rest.filter (fun q => patternMatches q file) with
        | nil =>
            rw [hfr] at h
            have hpq : q = p := by simpa using h
            have hrest : ∀ r ∈ rest, patternMatches r file = false := by
              intro r hr
              have := List.filter_eq_nil_iff.mp hfr r hr
              simpa using this
            simp only [List.foldl_cons]
            rw [if_pos hq, foldl_verdict_no_match file rest _ hrest, hpq]
        | cons r rs =>
            rw [hfr] at h
            rw [List.getLast?_cons_cons] at h
            rw [← hfr] at h
            simp only [List.foldl_cons]
            exact ih _ p h
      · rw [List.filter_cons_of_neg (by simpa using hq)] at h
        simp only [List.foldl_cons]
        rw [if_neg hq]
        exact ih init p h

/-- C1: last-match-wins — the verdict of `fileMatchesFilter` equals the
negation flip of the last pattern in declaration order whose regex matches
the file; the two-pattern example `*.txt` then `!secret.txt` on
`secret.txt` is the witness below. -/
theorem last_match_wins (compiled : CompiledFilter) (file : List Char) (p : PatternSpec)
    (h : (compiled.patterns.filter (fun q => patternMatches q file)).getLast? = some p) :
    fileMatchesFilter file compiled = !p.negative := by
  unfold fileMatchesFilter
  exact foldl_verdict_last_match file compiled.patterns _ p h

/-- Witness for last-match-wins: with patterns `*.txt` then `!secret.txt`,
the file `secret.txt` is excluded (result `false`). -/
theorem last_match_wins_witness :
    fileMatchesFilter "secret.txt".toList
      (compilePatterns ["*.txt".toList, "!secret.txt".toList]) = false := by
  have h := last_match_wins
    (compilePatterns ["*.txt".toList, "!secret.txt".toList])
    "secret.txt".toList
    (compilePattern "!secret.txt".toList)
    (by decide)
  rw [h]
  rfl

/-- C2: when no pattern matches the file, the verdict is the initial one:
`false` as soon as some pattern is non-negated, and `true` when every
pattern is negated. -/
theorem default_verdict_no_match (raws : List (List Char)) (file : List Char)
    (hnm : ∀ p ∈ (compilePatterns raws).patterns, patternMatches p file = false) :
    ((∃ p ∈ (compilePatterns raws).patterns, p.negative = false) →
      fileMatchesFilter file (compilePatterns raws) = false) ∧
    ((∀ p ∈ (compilePatterns raws).patterns, p.negative = true) →
      fileMatchesFilter file (compilePatterns raws) = true) := by
  have hhp : (compilePatterns raws).hasPositive =
      (compilePatterns raws).patterns.any (fun p => !p.negative) := rfl
  constructor
  · rintro ⟨p, hp, hneg⟩
    have hpos : (compilePatterns raws).patterns.any (fun q => !q.negative) = true := by
      rw [List.any_eq_true]
      exact ⟨p, hp, by simp [hneg]⟩
    unfold fileMatchesFilter
    rw [foldl_verdict_no_match file _ _ hnm, hhp, hpos]
    rfl
  · intro hall
    have hpos : (compilePatterns raws).patterns.any (fun q => !q.negative) = false := by
      rw [List.any_eq_false]
      intro p hp
      simp [hall p hp]
    unfold fileMatchesFilter
    rw [foldl_verdict_no_match file _ _ hnm, hhp, hpos]
    rfl

/-- Witness for the no-match default verdicts: a single negated pattern and
a file matching nothing gives `true`. -/
theorem default_verdict_no_match_witness :
    fileMatchesFilter "data.txt".toList (compilePatterns ["!secret.txt".toList]) = true :=
  (default_verdict_no_match ["!secret.txt".toList] "data.txt".toList (by decide)).2
    (by decide)

/-- C3, evaluated on the program: a filter whose pattern list is empty has
`hasPositive = false`, so `included` starts `true` and the loop body never
runs — every path is included, and a non-empty changed-file set yields
`true` under the `some` quantifier, contradicting the specified `false`. -/
theorem empty_filter_matches_everything :
    (∀ path : List Char, fileMatchesFilter path (compilePatterns []) = true) ∧
    filterAnyResult (compilePatterns []) ["x".toList] = true :=
  ⟨fun _ => rfl, rfl⟩

/-- C4, evaluated on the program: `globToRegex` turns `src/**/*.go` into
`^src\/.*\/[^/]*\.go$`, whose literal `/` after the `.*` forces at least one
directory level, so the direct child `src/c.go` does not match even though
`src/a/b/c.go` does; `src/*.go` correctly rejects `src/a/b.go`. -/
theorem double_star_requires_separator :
    matchGlob "src/**/*.go" "src/a/b/c.go" = true ∧
    matchGlob "src/**/*.go" "src/c.go" = false ∧
    matchGlob "src/*.go" "src/a/b.go" = false :=
  ⟨by decide, by decide, by decide⟩

/-! ## The matcher accepts exactly the generated whole strings -/

/-- `starTail` acceptance decomposes the string into a skipped non-`/` run
followed by a remainder accepted by the continuation. -/
lemma starTail_eq_true_iff (m : List Char → Bool) :
    ∀ s : List Char, starTail m s = true ↔
      ∃ w t, s = w ++ t ∧ (∀ c ∈ w, c ≠ '/') ∧ m t = true := by
  intro s
  induction s with
  | nil =>
      simp only [starTail]
      constructor
      · intro h
        exact ⟨[], [], rfl, fun c hc => absurd hc (List.not_mem_nil c), h⟩
      · rintro ⟨w, t, he, _, hm⟩
        obtain ⟨rfl, rfl⟩ := List.append_eq_nil.mp he.symm
        exact hm
  | cons d ds ih =>
      simp only [starTail, Bool.or_eq_true, Bool.and_eq_true]
      constructor
      · rintro (h | ⟨hd, h⟩)
        · exact ⟨[], d :: ds, rfl, fun c hc => absurd hc (List.not_mem_nil c), h⟩
        · obtain ⟨w, t, he, hw, hm⟩ := ih.mp h
          refine ⟨d :: w, t, by rw [List.cons_append, he], ?_, hm⟩
          intro c hc
          rcases List.mem_cons.mp hc with rfl | hc2
          · exact bne_iff_ne.mp hd
          · exact hw c hc2
      · rintro ⟨w, t, he, hw, hm⟩
        cases w with
        | nil =>
            left
            rw [List.nil_append] at he
            rw [he]
            exact hm
        | cons a w2 =>
            rw [List.cons_append] at he
            injection he with h1 h2
            subst h1
            right
            refine ⟨bne_iff_ne.mpr (hw d (List.mem_cons_self d w2)), ?_⟩
            exact ih.mpr ⟨w2, t, h2, fun c hc => hw c (List.mem_cons_of_mem d hc), hm⟩

/-- `dstarTail` acceptance decomposes the string into an arbitrary skipped
run followed by a remainder accepted by the continuation. -/
lemma dstarTail_eq_true_iff (m : List Char → Bool) :
    ∀ s : List Char, dstarTail m s = true ↔
      ∃ w t, s = w ++ t ∧ m t = true := by
  intro s
  induction s with
  | nil =>
      simp only [dstarTail]
      constructor
      · intro h
        exact ⟨[], [], rfl, h⟩
      · rintro ⟨w, t, he, hm⟩
        obtain ⟨rfl, rfl⟩ := List.append_eq_nil.mp he.symm
        exact hm
  | cons d ds ih =>
      simp only [dstarTail, Bool.or_eq_true]
      constructor
      · rintro (h | h)
        · exact ⟨[], d :: ds, rfl, h⟩
        · obtain ⟨w, t, he, hm⟩ := ih.mp h
          exact ⟨d :: w, t, by rw [List.cons_append, he], hm⟩
      · rintro ⟨w, t, he, hm⟩
        cases w with
        | nil =>
            left
            rw [List.nil_append] at he
            rw [he]
            exact hm
        | cons a w2 =>
            rw [List.cons_append] at he
            injection he with h1 h2
            right
            exact ih.mpr ⟨w2, t, h2, hm⟩

/-- The compiled matcher accepts a path exactly when the glob generates the
path in its entirety: soundness and completeness of `globMatch` for the
whole-string semantics `GlobSem`. -/
lemma globMatch_iff_sem : ∀ (ts : List GlobToken) (s : List Char),
    globMatch ts s = true ↔ GlobSem ts s := by
  intro ts
  induction ts with
  | nil =>
      intro s
      constructor
      · intro h
        have hs : s = [] := by
          cases s with
          | nil => rfl
          | cons a l => simp [globMatch] at h
        subst hs
        exact GlobSem.nil
      · intro h
        cases h
        rfl
  | cons tok ts ih =>
      cases tok with
      | lit c =>
          intro s
          cases s with
          | nil =>
              constructor
              · intro h
                simp [globMatch] at h
              · intro h
                cases h
          | cons d ds =>
              constructor
              · intro h
                simp only [globMatch, Bool.and_eq_true, beq_iff_eq] at h
                obtain ⟨rfl, h2⟩ := h
                exact GlobSem.lit ((ih ds).mp h2)
              · intro h
                cases h with
                | lit h2 =>
                    simp only [globMatch, Bool.and_eq_true, beq_iff_eq]
                    exact ⟨trivial, (ih ds).mpr h2⟩
      | qmark =>
          intro s
          cases s with
          | nil =>
              constructor
              · intro h
                simp [globMatch] at h
              · intro h
                cases h
          | cons d ds =>
              constructor
              · intro h
                simp only [globMatch, Bool.and_eq_true] at h
                exact GlobSem.qmark (bne_iff_ne.mp h.1) ((ih ds).mp h.2)
              · intro h
                cases h with
                | qmark hne h2 =>
                    simp only [globMatch, Bool.and_eq_true]
                    exact ⟨bne_iff_ne.mpr hne, (ih ds).mpr h2⟩
      | star =>
          intro s
          constructor
          · intro h
            have h' := (starTail_eq_true_iff (fun t => globMatch ts t) s).mp
              (by simpa [globMatch] using h)
            obtain ⟨w, t, rfl, hw, hm⟩ := h'
            exact GlobSem.star hw ((ih t).mp hm)
          · intro h
            cases h with
            | star hw h2 =>
                show starTail (fun t => globMatch ts t) _ = true
                exact (starTail_eq_true_iff _ _).mpr ⟨_, _, rfl, hw, (ih _).mpr h2⟩
      | dstar =>
          intro s
          constructor
          · intro h
            have h' := (dstarTail_eq_true_iff (fun t => globMatch ts t) s).mp
              (by simpa [globMatch] using h)
            obtain ⟨w, t, rfl, hm⟩ := h'
            exact GlobSem.dstar ((ih t).mp hm)
          · intro h
            cases h with
            | dstar h2 =>
                show dstarTail (fun t => globMatch ts t) _ = true
                exact (dstarTail_eq_true_iff _ _).mpr ⟨_, _, rfl, (ih _).mpr h2⟩

/-- C8: `?` matches exactly one non-separator character — `file?.txt`
matches `file1.txt` but neither `file.txt` nor `file12.txt` — and the
compiled matcher is anchored at both ends: it accepts a path exactly when
the glob generates the entire path, so acceptance of a proper substring of a
path never makes the path itself accepted. -/
theorem question_mark_matches_one_char :
    matchGlob "file?.txt" "file1.txt" = true ∧
    matchGlob "file?.txt" "file.txt" = false ∧
    matchGlob "file?.txt" "file12.txt" = false ∧
    ∀ (ts : List GlobToken) (s : List Char), globMatch ts s = true ↔ GlobSem ts s :=
  ⟨by decide, by decide, by decide, globMatch_iff_sem⟩

/-- Witness for the anchoring equivalence at a concrete pattern and path. -/
theorem question_mark_matches_one_char_witness :
    GlobSem (globToRegex "file?.txt".toList) "file1.txt".toList :=
  (question_mark_matches_one_char.2.2.2 (globToRegex "file?.txt".toList)
    "file1.txt".toList).mp (by decide)

/-! ## Pattern compilation and aggregation -/

/-- C5: under the `some` quantifier a filter is true iff some changed file
is included; the empty changed-file sequence yields `false` for every
filter; and the output has exactly one entry per filter, in filter order. -/
theorem any_aggregation (filters : List (List Char × List (List Char)))
    (compiled : CompiledFilter) (changed : List (List Char)) :
    (filterAnyResult compiled changed = true ↔
      ∃ f ∈ changed, fileMatchesFilter f compiled = true) ∧
    evaluateAny filters [] = filters.map (fun f => (f.1, false)) ∧
    (evaluateAny filters changed).map Prod.fst = filters.map Prod.fst := by
  refine ⟨List.any_eq_true, rfl, ?_⟩
  unfold evaluateAny
  rw [List.map_map]
  rfl

/-- Witness: a single `*.txt` filter is satisfied by the changed file
`a.txt` under the `some` quantifier. -/
theorem any_aggregation_witness :
    filterAnyResult (compilePatterns ["*.txt".toList]) ["a.txt".toList] = true :=
  ((any_aggregation [] (compilePatterns ["*.txt".toList]) ["a.txt".toList]).1).mpr
    ⟨"a.txt".toList, by decide, by decide⟩

/-- C6, evaluated on the program: pattern compilation has no failure path —
the lone `!` silently becomes a negated matcher for the empty regex `^$`,
and the empty pattern becomes a positive one — while the negation flag does
equal, for every input, whether the trimmed raw text begins with `!`. -/
theorem compile_never_fails :
    compilePattern "!".toList = { negative := true, tokens := [], raw := "!".toList } ∧
    compilePattern "".toList = { negative := false, tokens := [], raw := "".toList } ∧
    ∀ raw : List Char, (compilePattern raw).negative = startsWithBang (trimChars raw) := by
  refine ⟨by decide, by decide, ?_⟩
  intro raw
  unfold compilePattern
  by_cases h : startsWithBang (trimChars raw) = true
  · rw [if_pos h, h]
  · have h2 : startsWithBang (trimChars raw) = false := by
      cases hx : startsWithBang (trimChars raw) with
      | false => rfl
      | true => exact absurd hx h
    rw [if_neg h, h2]

/-! ## The filter-definition parser -/

/-- Declaring a filter name always leaves a non-empty accumulator. -/
lemma addFilterName_ne_nil (acc : List (List Char × List (List Char))) (n : List Char) :
    addFilterName acc n ≠ [] := by
  cases h : lookupFilter acc n with
  | none => simp [addFilterName, h]
  | some v =>
      simp only [addFilterName, h]
      cases acc with
      | nil => simp [lookupFilter] at h
      | cons e rest => simp

/-- Appending a pattern keeps the accumulator empty exactly when it was. -/
lemma addPattern_eq_nil_iff (acc : List (List Char × List (List Char)))
    (n pat : List Char) : addPattern acc n pat = [] ↔ acc = [] := by
  cases acc with
  | nil => simp [addPattern]
  | cons e rest =>
      simp only [addPattern]
      split <;> simp

/-- One parser step leaves the accumulator empty exactly when it was empty
and the line is not a filter-name line. -/
lemma parseStep_empty_iff (st : ParseState) (l : List Char) :
    (parseStep st l).2 = [] ↔ st.2 = [] ∧ lineIsName l = false := by
  obtain ⟨cur, acc⟩ := st
  by_cases he : trimChars l = []
  · have hln : lineIsName l = false := by
      unfold lineIsName
      rw [he]
      rfl
    simp [parseStep, he, hln]
  · by_cases hn : isNameLine (trimChars l) = true
    · have hln : lineIsName l = true := hn
      simp only [parseStep, if_neg he, if_pos hn, hln]
      have := addFilterName_ne_nil acc (trimChars l).dropLast
      simp [this]
    · have hln : lineIsName l = false := by
        unfold lineIsName
        cases hx : isNameLine (trimChars l) with
        | false => rfl
        | true => exact absurd hx hn
      simp only [parseStep, if_neg he, if_neg hn, hln]
      cases itemContent (trimChars l) with
      | none => simp
      | some pat =>
          cases cur with
          | none => simp
          | some n => simp [addPattern_eq_nil_iff]

/-- Folding the parser over a list of lines ends with an empty accumulator
exactly when it started empty and no line is a filter-name line. -/
lemma parse_acc_empty_iff :
    ∀ (lines : List (List Char)) (st : ParseState),
      (lines.foldl parseStep st).2 = [] ↔
        st.2 = [] ∧ ∀ l ∈ lines, lineIsName l = false := by
  intro lines
  induction lines with
  | nil => intro st; simp
  | cons l ls ih =>
      intro st
      rw [List.foldl_cons, ih, parseStep_empty_iff]
      simp [List.forall_mem_cons, and_assoc]

/-- C7: the parse is rejected with the `No filters defined` failure exactly
when the text contains no filter-name line, and accepted exactly when it
contains at least one. -/
theorem parse_requires_name_line (text : String) :
    (parseFiltersChecked text = .error .noFiltersDefined ↔
      ∀ l ∈ splitLines text.toList, lineIsName l = false) ∧
    ((parseFiltersChecked text).isOk = true ↔
      ∃ l ∈ splitLines text.toList, lineIsName l = true) := by
  have hinv := parse_acc_empty_iff (splitLines text.toList)
    ((none : Option (List Char)), ([] : List (List Char × List (List Char))))
  simp only [true_and] at hinv
  by_cases he : parseFiltersChars text.toList = []
  · have hEmpty : (parseFilters text).isEmpty = true := by
      unfold parseFilters
      rw [he]
      rfl
    have hpf : parseFiltersChecked text = .error .noFiltersDefined := by
      unfold parseFiltersChecked
      rw [if_pos hEmpty]
    constructor
    · exact iff_of_true hpf (hinv.mp he)
    · refine iff_of_false (by rw [hpf]; decide) ?_
      rintro ⟨l, hl, hn⟩
      have := hinv.mp he l hl
      rw [hn] at this
      exact absurd this (by decide)
  · have hEmpty : ¬((parseFilters text).isEmpty = true) := by
      unfold parseFilters
      cases hx : parseFiltersChars text.toList with
      | nil => exact absurd hx he
      | cons a rest =>
          intro hfalse
          simp at hfalse
    have hpf : parseFiltersChecked text = .ok (parseFilters text) := by
      unfold parseFiltersChecked
      rw [if_neg hEmpty]
    constructor
    · refine iff_of_false (by rw [hpf]; intro h; exact Except.noConfusion h) ?_
      intro hall
      exact he (hinv.mpr hall)
    · refine iff_of_true (by rw [hpf]; rfl) ?_
      by_contra hno
      push_neg at hno
      refine he (hinv.mpr fun l hl => ?_)
      have := hno l hl
      cases hln : lineIsName l with
      | false => rfl
      | true => exact absurd hln this

/-- Witness: a one-line definition text with a single filter name parses
successfully. -/
theorem parse_requires_name_line_witness :
    (parseFiltersChecked "docs:").isOk = true :=
  (parse_requires_name_line "docs:").2.mpr ⟨"docs:".toList, by decide, by decide⟩

/-- C9, evaluated on the program: a re-declared filter name keeps its
existing pattern list (`if (!result[current]) result[current] = []`), so the
duplicated-name text accumulates `x` and then `y` under `a` instead of
resetting to `y` alone. -/
theorem duplicate_name_keeps_patterns :
    parseFilters "a:\n- x\na:\n- y" = [("a".toList, ["x".toList, "y".toList])] ∧
    lookupFilter (parseFilters "a:\n- x\na:\n- y") "a".toList =
      some ["x".toList, "y".toList] :=
  ⟨rfl, rfl⟩

/-- With no current filter, any line that is not a filter-name line leaves
the parser state untouched; in particular pattern lines before the first
filter name are dropped. -/
lemma parseStep_none_of_not_name (acc : List (List Char × List (List Char)))
    (l : List Char) (hl : lineIsName l = false) :
    parseStep (none, acc) l = (none, acc) := by
  by_cases he : trimChars l = []
  · simp [parseStep, he]
  · have hn : isNameLine (trimChars l) = false := hl
    simp only [parseStep, if_neg he]
    rw [if_neg (by simp [hn])]
    cases itemContent (trimChars l) <;> rfl

/-- C10: lines that precede the first filter-name line and are not name
lines themselves (in particular pattern lines) are silently ignored — the
parse of the whole text equals the parse of the remainder — and a concrete
leading pattern line yields a successful parse in which that pattern occurs
in no filter. -/
theorem orphan_pattern_lines_ignored :
    (∀ (acc : List (List Char × List (List Char))) (pre post : List (List Char)),
      (∀ l ∈ pre, lineIsName l = false) →
      (pre ++ post).foldl parseStep (none, acc) = post.foldl parseStep (none, acc)) ∧
    parseFilters "- ignored\nf:\n- x" = [("f".toList, ["x".toList])] := by
  constructor
  · intro acc pre
    induction pre with
    | nil => intro post _; rfl
    | cons l ls ih =>
        intro post hpre
        rw [List.cons_append, List.foldl_cons,
          parseStep_none_of_not_name acc l (hpre l (List.mem_cons_self l ls))]
        exact ih post fun x hx => hpre x (List.mem_cons_of_mem l hx)
  · rfl

/-- Witness: a leading pattern line is skipped before a name line. -/
theorem orphan_pattern_lines_ignored_witness :
    (["- a".toList] ++ ["f:".toList]).foldl parseStep (none, []) =
      ["f:".toList].foldl parseStep (none, []) :=
  orphan_pattern_lines_ignored.1 [] ["- a".toList] ["f:".toList] (by decide)
